import Mathlib

/-!
Verification development for the gitleaks history-scanning engine.

The Go sources embedded here are the whole-history scanner
(`RepoScanner.Scan`, scan/repo_scanner file), the single-commit scanner
(`CommitScanner.Scan`), and the legacy `main` package (`loadToml`,
`auditBranch`).  Go slices become `List`, Go maps become association
lists, a nil map becomes `none : Option _`, goroutine/channel fan-in is
modelled by in-order accumulation of each dispatched unit's findings
(the claims settled here concern which findings exist, counters, and
continuation/abort behaviour, none of which depend on the interleaving),
and the cooperative timeout flag is modelled as a constant boolean held
in the options.  Panics (the recovered go-diff fault, nil-map writes and
nil-pointer dereferences) are explicit outcome constructors.
-/

namespace Gitleaks

/-- Change kind of a diff chunk: `fdiff.Add`, `fdiff.Delete`, `fdiff.Equal`. -/
inductive ChunkType where
  | add
  | del
  | equal
deriving DecidableEq, Repr

/-- One diff hunk: change kind plus raw content (`chunk.Type()`, `chunk.Content()`). -/
structure Chunk where
  ty : ChunkType
  content : String
deriving DecidableEq, Repr

/-- One side of a file patch (`fdiff.File`): only its path is consumed by the scanners. -/
structure DiffFile where
  path : String
deriving DecidableEq, Repr

/-- A file patch (`fdiff.FilePatch`): binary marker, the from/to sides
returned by `f.Files()` (either may be absent), and the chunk list. -/
structure FilePatch where
  binary : Bool
  fromFile : Option DiffFile
  toFile : Option DiffFile
  chunks : List Chunk
deriving DecidableEq, Repr

/-- A commit-vs-parent patch (`object.Patch`): its file patches and its
full textual rendering `patch.String()`. -/
structure Patch where
  filePatches : List FilePatch
  text : String
deriving DecidableEq, Repr

/-- A finding, the fields of `scan.Leak` the claims touch: matched line,
line number, offender substring, rule id, file path, commit hash. -/
structure Leak where
  line : String
  lineNumber : Nat
  offender : String
  rule : String
  file : String
  commit : String
deriving DecidableEq, Repr

/-- A detection rule: id plus its compiled pattern, abstracted as the
function the pattern induces on one line (the matched substring, if any). -/
structure Rule where
  id : String
  matchLine : String → Option String

/-- Scan options consumed by the embedded scanners: `Deletion`
(include-deletions), `Depth` (0 means unlimited), `CommitTo` (stop
commit), the cooperative timeout state, and `Threads`. -/
structure Opts where
  deletion : Bool
  depth : Nat
  commitTo : String
  timedOut : Bool
  threads : Nat
deriving DecidableEq, Repr

/-- Whether `pat` starts `s`, over character lists. -/
def charsStart (pat s : List Char) : Bool :=
  match pat, s with
  | [], _ => true
  | _ :: _, [] => false
  | p :: ps, c :: cs => p == c && charsStart ps cs

/-- Whether `pat` occurs somewhere in `s`, over character lists. -/
def charsContain (pat : List Char) : List Char → Bool
  | [] => charsStart pat []
  | c :: cs => charsStart pat (c :: cs) || charsContain pat cs

/-- Whether `sub` occurs somewhere in `s` (Go `strings.Contains`). -/
def strContainsSub (s sub : String) : Bool :=
  charsContain sub.data s.data

/-- Splits a character list on one separator character, Go
`strings.Split` semantics (the empty input gives one empty piece). -/
def splitOnChar (sep : Char) : List Char → List (List Char)
  | [] => [[]]
  | c :: cs =>
    match splitOnChar sep cs with
    | [] => if c == sep then [[], []] else [[c]]
    | h :: t => if c == sep then [] :: h :: t else (c :: h) :: t

/-- Splits a string into its lines at newline characters (Go
`strings.Split(s, "\n")`). -/
def splitLines (s : String) : List String :=
  (splitOnChar (Char.ofNat 10) s.data).map fun l => { data := l }

/-- Modelled from the spec: the Match Engine `checkRules` is repository
code that is not under src/.  Per the spec it splits the chunk content
on line breaks and applies every rule independently to each line; a
match yields one finding carrying the line, the offender substring, the
rule id, the file path and the commit hash.  Line numbers start at the
Go zero value; file- and content-level allowlist suppression is omitted
here because no settled claim depends on it. -/
def checkRules (rules : List Rule) (filePath commitHash : String) (content : String) :
    List Leak :=
  (splitLines content).flatMap fun line =>
    rules.filterMap fun r =>
      (r.matchLine line).map fun m =>
        { line := line, lineNumber := 0, offender := m, rule := r.id,
          file := filePath, commit := commitHash }

/-- File-path resolution as both scanners write it (repo scanner lines
134-142, commit scanner lines 65-73): the from-side's path when present,
else the to-side's path, else the literal placeholder. -/
def resolveFilePath (fromFile toFile : Option DiffFile) : String :=
  match fromFile with
  | some f => f.path
  | none =>
    match toFile with
    | some t => t.path
    | none => "???"

/-- File-path resolution as the spec's words state it (to-path first),
kept for comparison with `resolveFilePath`. -/
def resolveFilePathSpec (fromFile toFile : Option DiffFile) : String :=
  match toFile with
  | some t => t.path
  | none =>
    match fromFile with
    | some f => f.path
    | none => "???"

/-- The chunk gate both scanners write:
`chunk.Type() == fdiff.Add || (opts.Deletion && chunk.Type() == fdiff.Delete)`. -/
def chunkEligible (deletion : Bool) (ty : ChunkType) : Bool :=
  ty == ChunkType.add || (deletion && ty == ChunkType.del)

/-- Modelled from the spec: `extractLine` is repository code that is not
under src/.  Per the spec, the absolute line number is found by locating
the finding's matched line inside the full patch text, first occurrence
winning; here it is the 1-based index of the first patch line containing
the finding's line, 0 when absent. -/
def extractLine (patchText : String) (leak : Leak) : Nat :=
  match (splitLines patchText).findIdx? (fun l => strContainsSub l leak.line) with
  | some i => i + 1
  | none => 0

/-- Modelled from the spec: the root scan (`FilesAtCommitScanner`) is
repository code that is not under src/.  Per the spec, a parentless
commit's whole tree snapshot is scanned as if every line were an
addition; the tree is a list of (path, content) pairs. -/
def filesAtCommitScan (rules : List Rule) (commitHash : String)
    (tree : List (String × String)) : List Leak :=
  tree.flatMap fun ft => checkRules rules ft.1 commitHash ft.2

/-- Modelled from the spec: `isCommitAllowListed` is repository code
that is not under src/; per the spec, a commit is allowlisted when its
hash is in the configured set (exact match). -/
def isCommitAllowListed (hash : String) (commits : List String) : Bool :=
  commits.contains hash

/-- Modelled from the spec: `depthReached` is repository code that is
not under src/; per the spec the depth limit bounds the number of
commits visited, with 0 meaning no limit. -/
def depthReached (cc : Nat) (opts : Opts) : Bool :=
  opts.depth != 0 && decide (opts.depth ≤ cc)

/-- Outcome of `parent.Patch(c)` for one parent: a patch, a normal error
(leaving the patch pointer nil), or the documented go-diff fault class
that aborts abnormally instead of erroring normally. -/
inductive PatchOutcome where
  | ok (p : Patch)
  | genErr
  | fault
deriving DecidableEq, Repr

deriving instance DecidableEq for Except

/-- One commit as the whole-history walker consumes it: hash, message,
whether it has no parents, the result of resolving its first parent
collapsed with the diff outcome against it, and its tree snapshot. -/
structure RCommit where
  hash : String
  message : String
  isRoot : Bool
  parentResolve : Except String PatchOutcome
  tree : List (String × String)
deriving DecidableEq, Repr

/-- Per-file work of the repo scanner's dispatched worker (lines
125-149): skip binary file patches; for each chunk passing the gate,
resolve the path and run the rules on the chunk content. -/
def repoScanFilePatch (deletion : Bool) (rules : List Rule) (commitHash : String)
    (f : FilePatch) : List Leak :=
  if f.binary then []
  else
    f.chunks.flatMap fun chunk =>
      if chunkEligible deletion chunk.ty then
        checkRules rules (resolveFilePath f.fromFile f.toFile) commitHash chunk.content
      else []

/-- Walker state threaded through `cIter.ForEach`: the commit counter
`cc` and the accumulated findings (channel fan-in modelled in dispatch
order). -/
structure RepoState where
  cc : Nat
  leaks : List Leak
deriving DecidableEq, Repr

/-- Result of the `ForEach` callback on one commit.  `cont` continues
with the next commit; `stop` is `storer.ErrStop` (graceful); `abortIter`
is a non-nil error returned by the callback, which ends the iteration
(the value `Scan` assigns to `err` and then discards, returning nil);
`crashed` is the unrecovered nil-pointer dereference a worker hits when
`parent.Patch` errored and left the patch nil. -/
inductive StepRes where
  | cont (st : RepoState)
  | stop (st : RepoState)
  | abortIter (e : String) (st : RepoState)
  | crashed (st : RepoState)
deriving DecidableEq, Repr

/-- The state carried by a step result. -/
def stepState : StepRes → RepoState
  | .cont st => st
  | .stop st => st
  | .abortIter _ st => st
  | .crashed st => st

/-- The `ForEach` callback of `RepoScanner.Scan` (lines 61-156), one
commit: stop on timeout or depth; skip (without counting) an allowlisted
commit; a root commit counts and delegates to the root scan; otherwise
count, resolve the first parent (a failure is returned as the callback's
error), and on a generated patch run the worker and then test the stop
commit.  A recovered go-diff fault leaves the findings untouched and
continues; the recovery also skips the stop-commit test. -/
def repoStep (opts : Opts) (allowCommits : List String) (rules : List Rule)
    (st : RepoState) (c : RCommit) : StepRes :=
  if opts.timedOut || depthReached st.cc opts then .stop st
  else if isCommitAllowListed c.hash allowCommits then .cont st
  else if c.isRoot then
    .cont { cc := st.cc + 1, leaks := st.leaks ++ filesAtCommitScan rules c.hash c.tree }
  else
    match c.parentResolve with
    | .error e => .abortIter e { st with cc := st.cc + 1 }
    | .ok po =>
      match po with
      | .fault => .cont { st with cc := st.cc + 1 }
      | .genErr => .crashed { st with cc := st.cc + 1 }
      | .ok p =>
        let st' : RepoState :=
          { cc := st.cc + 1,
            leaks := st.leaks ++ p.filePatches.flatMap (repoScanFilePatch opts.deletion rules c.hash) }
        if c.hash == opts.commitTo then .stop st' else .cont st'

/-- What `RepoScanner.Scan` leaves behind: the counter, the findings
`GetLeaks` returns, the iteration error `Scan` swallowed (it returns nil
regardless), and whether a worker crashed the process. -/
structure RepoResult where
  cc : Nat
  leaks : List Leak
  iterErr : Option String
  crashed : Bool
deriving DecidableEq, Repr

/-- Folds `repoStep` over the commit stream, as `cIter.ForEach` does. -/
def repoScanList (opts : Opts) (allowCommits : List String) (rules : List Rule)
    (st : RepoState) : List RCommit → RepoResult
  | [] => { cc := st.cc, leaks := st.leaks, iterErr := none, crashed := false }
  | c :: cs =>
    match repoStep opts allowCommits rules st c with
    | .cont st' => repoScanList opts allowCommits rules st' cs
    | .stop st' => { cc := st'.cc, leaks := st'.leaks, iterErr := none, crashed := false }
    | .abortIter e st' => { cc := st'.cc, leaks := st'.leaks, iterErr := some e, crashed := false }
    | .crashed st' => { cc := st'.cc, leaks := st'.leaks, iterErr := none, crashed := true }

/-- The whole-history scan from the initial state. -/
def repoScan (opts : Opts) (allowCommits : List String) (rules : List Rule)
    (commits : List RCommit) : RepoResult :=
  repoScanList opts allowCommits rules { cc := 0, leaks := [] } commits

/-- One entry of `cs.commit.Parents()`: either the parent failed to
resolve (the iterator surfaces the error) or it resolved, collapsed with
the outcome of `parent.Patch(cs.commit)`. -/
inductive ParentEntry where
  | resolveErr (e : String)
  | resolved (po : PatchOutcome)
deriving DecidableEq, Repr

/-- The commit the single-commit scanner consumes. -/
structure CommitInput where
  hash : String
  parents : List ParentEntry
  tree : List (String × String)
deriving DecidableEq, Repr

/-- The chunk loop body of `CommitScanner.Scan` (lines 63-81).  The Go
`for _, leak := range leaks` writes `extractLine`'s result into the
iteration copy, so the backfilled list is built and discarded while the
original `leaks` is what `cs.leaks = leaks` stores — overwriting, not
appending to, the accumulator. -/
def commitChunkStep (deletion : Bool) (rules : List Rule) (commitHash patchText : String)
    (f : FilePatch) (acc : List Leak) (chunk : Chunk) : List Leak :=
  if chunkEligible deletion chunk.ty then
    let leaks := checkRules rules (resolveFilePath f.fromFile f.toFile) commitHash chunk.content
    let _backfilled := leaks.map fun leak => { leak with lineNumber := extractLine patchText leak }
    leaks
  else acc

/-- The file loop of `CommitScanner.Scan` (lines 56-83): binary file
patches are skipped, otherwise the chunk loop runs over `cs.leaks`. -/
def commitProcessFile (deletion : Bool) (rules : List Rule) (commitHash patchText : String)
    (st : List Leak) (f : FilePatch) : List Leak :=
  if f.binary then st
  else f.chunks.foldl (commitChunkStep deletion rules commitHash patchText f) st

/-- Result of the per-parent callback of `CommitScanner.Scan`. -/
inductive CStep where
  | cont (st : List Leak)
  | abortIter (e : String) (st : List Leak)
deriving DecidableEq, Repr

/-- The per-parent callback of `CommitScanner.Scan` (lines 33-85): a
parent that fails to resolve aborts the iteration with its error; a
recovered go-diff fault continues with the findings untouched; a normal
patch error aborts with "could not generate Patch"; a generated patch
runs the file loop against the accumulated findings. -/
def commitParentStep (opts : Opts) (rules : List Rule) (c : CommitInput)
    (st : List Leak) (pe : ParentEntry) : CStep :=
  match pe with
  | .resolveErr e => .abortIter e st
  | .resolved po =>
    if opts.timedOut then .cont st
    else
      match po with
      | .fault => .cont st
      | .genErr => .abortIter "could not generate Patch" st
      | .ok p => .cont (p.filePatches.foldl (commitProcessFile opts.deletion rules c.hash p.text) st)

/-- Folds the per-parent callback over the parent iterator, as
`Parents().ForEach` does: the first callback error ends the iteration
and is returned alongside `cs.leaks`. -/
def commitScanParents (opts : Opts) (rules : List Rule) (c : CommitInput) :
    List Leak → List ParentEntry → List Leak × Option String
  | st, [] => (st, none)
  | st, pe :: pes =>
    match commitParentStep opts rules c st pe with
    | .cont st' => commitScanParents opts rules c st' pes
    | .abortIter e st' => (st', some e)

/-- `CommitScanner.Scan` (lines 27-87): a parentless commit delegates to
the root scan; otherwise the parent loop runs and `(cs.leaks, err)` is
returned. -/
def commitScan (opts : Opts) (rules : List Rule) (c : CommitInput) :
    List Leak × Option String :=
  if c.parents.isEmpty then (filesAtCommitScan rules c.hash c.tree, none)
  else commitScanParents opts rules c [] c.parents

/-- The whitelist table of the legacy `Config` as `loadToml` decodes it. -/
structure WhitelistConfig where
  files : List String
  regexes : List String
  commits : List String
  branches : List String
  messages : List String
deriving DecidableEq, Repr

/-- A Go runtime fault the legacy `main` package can hit. -/
inductive GoFault where
  | nilMapWrite
deriving DecidableEq, Repr

/-- Assignment into a Go map modelled as an association of keys: a nil
map (`none`) aborts the program, an allocated map gains the key. -/
def goMapInsert (m : Option (List String)) (k : String) :
    Except GoFault (Option (List String)) :=
  match m with
  | none => .error .nilMapWrite
  | some keys => .ok (some (k :: keys))

/-- Inserts every key of a list in order, stopping at the first fault. -/
def goMapInsertAll (m : Option (List String)) :
    List String → Except GoFault (Option (List String))
  | [] => .ok m
  | k :: ks =>
    match goMapInsert m k with
    | .error f => .error f
    | .ok m' => goMapInsertAll m' ks

/-- The global whitelist tables `loadToml` populates. -/
structure LoadedAllowlists where
  whiteListCommits : Option (List String)
  whiteListBranches : List String
  whiteListFiles : List String
  whiteListRegexes : List String
deriving DecidableEq, Repr

/-- The allowlist-population tail of `loadToml` (lines 852-864), in
source order: branches are assigned, then every `Whitelist.Commits`
entry and then every `Whitelist.Messages` entry is inserted into
`whiteListCommits` — the messages go into the commit-hash map, and that
map is the package-level variable that is never initialized, so it is
still the nil map here — then files and regexes are appended (their
compilation is modelled as storing the pattern). -/
def loadTomlAllowlists (wl : WhitelistConfig) : Except GoFault LoadedAllowlists :=
  match goMapInsertAll none wl.commits with
  | .error f => .error f
  | .ok m1 =>
    match goMapInsertAll m1 wl.messages with
    | .error f => .error f
    | .ok m2 =>
      .ok { whiteListCommits := m2, whiteListBranches := wl.branches,
            whiteListFiles := wl.files, whiteListRegexes := wl.regexes }

/-- The bounded worker pool of both scanners (`semaphore := make(chan
bool, k)`; `semaphore <- true` before dispatch, `<-semaphore` on worker
exit): the state is the number of workers currently holding a permit,
i.e. the buffered channel's occupancy.  A send blocks unless the
occupancy is below the capacity; a receive frees one permit. -/
inductive PoolStep (k : Nat) : Nat → Nat → Prop where
  | acquire (n : Nat) : n < k → PoolStep k n (n + 1)
  | release (n : Nat) : PoolStep k (n + 1) n

/-- Pool states reachable from the empty pool by acquire/release steps. -/
inductive PoolReachable (k : Nat) : Nat → Prop where
  | init : PoolReachable k 0
  | step {m n : Nat} : PoolReachable k m → PoolStep k m n → PoolReachable k n


/-- A rule whose compiled pattern matches exactly one literal line. -/
def ruleExact (id pat : String) : Rule :=
  { id := id, matchLine := fun line => if line == pat then some pat else none }

/-- Default options: no deletions, no depth limit, no stop commit, no timeout. -/
def optsN : Opts := { deletion := false, depth := 0, commitTo := "", timedOut := false, threads := 4 }

/-- Rule matching the line "AKIA-ONE". -/
def rA : Rule := ruleExact "rule-a" "AKIA-ONE"

/-- Rule matching the line "AKIA-TWO". -/
def rB : Rule := ruleExact "rule-b" "AKIA-TWO"

/-- A rename file patch: both sides present with different paths. -/
def fpRename : FilePatch :=
  { binary := false, fromFile := some { path := "old.txt" }, toFile := some { path := "new.txt" },
    chunks := [{ ty := .add, content := "AKIA-ONE" }] }

/-- The patch holding `fpRename`. -/
def patchRename : Patch := { filePatches := [fpRename], text := "+AKIA-ONE" }

/-- A one-parent commit whose diff is `patchRename`. -/
def cInRename : CommitInput :=
  { hash := "c1hash", parents := [.resolved (.ok patchRename)], tree := [] }

/-- Full patch text whose third line carries the matched content. -/
def patchText3 : String := "diff --git a/f b/f\n@@ -0,0 +1 @@\n+AKIA-ONE"

/-- The finding `checkRules` produces for the C3 input. -/
def leak3 : Leak :=
  { line := "AKIA-ONE", lineNumber := 0, offender := "AKIA-ONE", rule := "rule-a",
    file := "f", commit := "c3hash" }

/-- File patch for the C3 input. -/
def fp3 : FilePatch :=
  { binary := false, fromFile := some { path := "f" }, toFile := some { path := "f" },
    chunks := [{ ty := .add, content := "AKIA-ONE" }] }

/-- A one-parent commit whose patch text is `patchText3`. -/
def cIn3 : CommitInput :=
  { hash := "c3hash", parents := [.resolved (.ok { filePatches := [fp3], text := patchText3 })],
    tree := [] }

/-- First-parent diff of the C4 input: a chunk matching rule-a. -/
def fp4a : FilePatch :=
  { binary := false, fromFile := some { path := "f" }, toFile := some { path := "f" },
    chunks := [{ ty := .add, content := "AKIA-ONE" }] }

/-- Second-parent diff of the C4 input: a chunk matching rule-b. -/
def fp4b : FilePatch :=
  { binary := false, fromFile := some { path := "f" }, toFile := some { path := "f" },
    chunks := [{ ty := .add, content := "AKIA-TWO" }] }

/-- A two-parent commit whose diffs against the parents each hold one match. -/
def cIn4 : CommitInput :=
  { hash := "c4hash",
    parents := [.resolved (.ok { filePatches := [fp4a], text := "+AKIA-ONE" }),
                .resolved (.ok { filePatches := [fp4b], text := "+AKIA-TWO" })],
    tree := [] }

/-- A commit whose first parent fails to resolve. -/
def cBad : RCommit :=
  { hash := "bad", message := "", isRoot := false,
    parentResolve := .error "object not found", tree := [] }

/-- File patch carrying one match, for the walker fixtures. -/
def fpG : FilePatch :=
  { binary := false, fromFile := some { path := "g.txt" }, toFile := some { path := "g.txt" },
    chunks := [{ ty := .add, content := "AKIA-ONE" }] }

/-- The patch holding `fpG`. -/
def patchG : Patch := { filePatches := [fpG], text := "+AKIA-ONE" }

/-- A healthy commit whose diff holds one match. -/
def cGood : RCommit :=
  { hash := "good", message := "", isRoot := false,
    parentResolve := .ok (.ok patchG), tree := [] }

/-- The finding the walker gathers from `cGood`. -/
def leakG : Leak :=
  { line := "AKIA-ONE", lineNumber := 0, offender := "AKIA-ONE", rule := "rule-a",
    file := "g.txt", commit := "good" }

/-- A commit whose hash is in the allowlist fixture. -/
def cAllow : RCommit :=
  { hash := "ALLOWED", message := "", isRoot := false,
    parentResolve := .ok (.ok patchG), tree := [] }

/-- A commit whose patch generation hits the recovered go-diff fault. -/
def cFault : RCommit :=
  { hash := "faultc", message := "", isRoot := false,
    parentResolve := .ok .fault, tree := [] }

/-- A to-side-only file patch for the C1 witness. -/
def fpW1 : FilePatch :=
  { binary := false, fromFile := none, toFile := some { path := "n.txt" },
    chunks := [{ ty := .add, content := "AKIA-ONE" }] }

/-- The finding produced from `fpW1`. -/
def lW1 : Leak :=
  { line := "AKIA-ONE", lineNumber := 0, offender := "AKIA-ONE", rule := "rule-a",
    file := "n.txt", commit := "h" }

/-- A small single-commit-scan input for witnesses. -/
def cInW : CommitInput := { hash := "w", parents := [.resolved (.ok patchG)], tree := [] }

/-- File patch mixing all three chunk kinds, for the C7 witness. -/
def fpW7 : FilePatch :=
  { binary := false, fromFile := some { path := "m.txt" }, toFile := some { path := "m.txt" },
    chunks := [{ ty := .add, content := "AKIA-ONE" }, { ty := .equal, content := "AKIA-ONE" },
               { ty := .del, content := "AKIA-TWO" }] }


/-- A finding produced by the match engine carries the file path it was given. -/
theorem checkRules_file_eq {rules : List Rule} {fp ch content : String} {l : Leak}
    (hl : l ∈ checkRules rules fp ch content) : l.file = fp := by
  simp only [checkRules, List.mem_flatMap, List.mem_filterMap] at hl
  obtain ⟨line, -, r, -, hmap⟩ := hl
  rcases hm : r.matchLine line with _ | m
  · rw [hm] at hmap; simp at hmap
  · rw [hm] at hmap
    simp only [Option.map_some'] at hmap
    cases hmap
    rfl

/-- Every finding of the repo scanner's per-file work carries the resolved path. -/
theorem repoScanFilePatch_mem_file {deletion : Bool} {rules : List Rule} {ch : String}
    {f : FilePatch} {l : Leak} (hl : l ∈ repoScanFilePatch deletion rules ch f) :
    l.file = resolveFilePath f.fromFile f.toFile := by
  unfold repoScanFilePatch at hl
  split at hl
  · simp at hl
  · simp only [List.mem_flatMap] at hl
    obtain ⟨chunk, -, hc⟩ := hl
    split at hc
    · exact checkRules_file_eq hc
    · simp at hc

/-- A finding left by one chunk step either was already accumulated or
carries the resolved path. -/
theorem commitChunkStep_mem {deletion : Bool} {rules : List Rule} {ch pt : String}
    {f : FilePatch} {acc : List Leak} {chunk : Chunk} {l : Leak}
    (hl : l ∈ commitChunkStep deletion rules ch pt f acc chunk) :
    l ∈ acc ∨ l.file = resolveFilePath f.fromFile f.toFile := by
  unfold commitChunkStep at hl
  split at hl
  · exact Or.inr (checkRules_file_eq hl)
  · exact Or.inl hl

/-- Folding the chunk step preserves the path property. -/
theorem foldl_commitChunkStep_mem {deletion : Bool} {rules : List Rule} {ch pt : String}
    {f : FilePatch} {l : Leak} (chunks : List Chunk) :
    ∀ st : List Leak,
      l ∈ chunks.foldl (commitChunkStep deletion rules ch pt f) st →
      l ∈ st ∨ l.file = resolveFilePath f.fromFile f.toFile := by
  induction chunks with
  | nil => intro st hl; exact Or.inl hl
  | cons c cs ih =>
    intro st hl
    rcases ih _ hl with h | h
    · exact commitChunkStep_mem h
    · exact Or.inr h

/-- Every finding the commit scanner's file loop adds carries the resolved path. -/
theorem commitProcessFile_mem {deletion : Bool} {rules : List Rule} {ch pt : String}
    {st : List Leak} {f : FilePatch} {l : Leak}
    (hl : l ∈ commitProcessFile deletion rules ch pt st f) :
    l ∈ st ∨ l.file = resolveFilePath f.fromFile f.toFile := by
  unfold commitProcessFile at hl
  split at hl
  · exact Or.inl hl
  · exact foldl_commitChunkStep_mem f.chunks st hl

/-- A flatMap guarded by a boolean test equals filtering then flatMapping. -/
theorem flatMap_ite_eq_filter {α β : Type} (p : α → Bool) (g : α → List β) :
    ∀ l : List α, (l.flatMap fun a => if p a then g a else []) = (l.filter p).flatMap g := by
  intro l
  induction l with
  | nil => rfl
  | cons a as ih =>
    by_cases h : p a
    · simp [List.filter_cons, h, ih]
    · simp [List.filter_cons, h, ih]


/-- Under the hypotheses of C5, the walker's step on the failing commit is
either the graceful stop of the entry checks or the iteration abort. -/
theorem repoStep_parent_error {opts : Opts} {al : List String} {rules : List Rule}
    {st : RepoState} {c : RCommit} {e : String}
    (hroot : c.isRoot = false) (hal : isCommitAllowListed c.hash al = false)
    (hpr : c.parentResolve = .error e) :
    repoStep opts al rules st c = .stop st
    ∨ repoStep opts al rules st c = .abortIter e { st with cc := st.cc + 1 } := by
  unfold repoStep
  by_cases htd : (opts.timedOut || depthReached st.cc opts) = true
  · left; simp [htd]
  · right; simp [htd, hroot, hal, hpr]

/-- C1 (amended): in both scanners, a finding produced from a non-binary
file patch has its file path resolved from the from-path when present,
else the to-path, else the literal placeholder "???" (`resolveFilePath`);
the spec's to-path-first order (`resolveFilePathSpec`) is not what the
code computes. -/
theorem c1_filepath_from_side_first :
    (∀ (deletion : Bool) (rules : List Rule) (commitHash : String) (f : FilePatch) (l : Leak),
        l ∈ repoScanFilePatch deletion rules commitHash f →
        l.file = resolveFilePath f.fromFile f.toFile)
    ∧ (∀ (deletion : Bool) (rules : List Rule) (commitHash patchText : String)
        (st : List Leak) (f : FilePatch) (l : Leak),
        l ∈ commitProcessFile deletion rules commitHash patchText st f →
        l ∈ st ∨ l.file = resolveFilePath f.fromFile f.toFile) :=
  ⟨fun _ _ _ _ _ hl => repoScanFilePatch_mem_file hl,
   fun _ _ _ _ _ _ _ hl => commitProcessFile_mem hl⟩

/-- C1 counterexample: on a rename file patch (both sides present, paths
differing) the single-commit scan reports the from-path, not the to-path
the claim requires. -/
theorem c1_counterexample :
    (commitScan optsN [rA] cInRename).fst.map (fun l => l.file) = ["old.txt"]
    ∧ fpRename.toFile = some { path := "new.txt" }
    ∧ resolveFilePathSpec fpRename.fromFile fpRename.toFile = "new.txt"
    ∧ ("old.txt" : String) ≠ "new.txt" := by decide

/-- C1 witness: the amended theorem applied to a to-side-only file patch
and to the commit scanner's file loop at concrete inputs. -/
theorem c1_witness :
    lW1.file = resolveFilePath fpW1.fromFile fpW1.toFile
    ∧ (lW1 ∈ ([] : List Leak) ∨ lW1.file = resolveFilePath fpW1.fromFile fpW1.toFile) :=
  ⟨c1_filepath_from_side_first.1 false [rA] "h" fpW1 lW1 (by decide),
   c1_filepath_from_side_first.2 false [rA] "h" "+AKIA-ONE" [] fpW1 lW1 (by decide)⟩

/-- C2 (amended): the examined-commit counter increments for every
non-allowlisted commit the walker processes, but a commit skipped
because its hash is in the commit allowlist is skipped before the
counter increment and is not counted toward the depth limit. -/
theorem c2_allowlist_exempt_from_count :
    ∀ (opts : Opts) (al : List String) (rules : List Rule) (st : RepoState) (c : RCommit),
      opts.timedOut = false → depthReached st.cc opts = false →
      ((isCommitAllowListed c.hash al = true → repoStep opts al rules st c = .cont st)
       ∧ (isCommitAllowListed c.hash al = false →
           (stepState (repoStep opts al rules st c)).cc = st.cc + 1)) := by
  intro opts al rules st c hto hd
  constructor
  · intro ha
    simp [repoStep, hto, hd, ha]
  · intro ha
    by_cases hr : c.isRoot
    · simp [repoStep, stepState, hto, hd, ha, hr]
    · rcases hpr : c.parentResolve with e | po
      · simp [repoStep, stepState, hto, hd, ha, hr, hpr]
      · rcases po with p | _ | _
        · by_cases hstop : (c.hash == opts.commitTo) = true <;>
            simp [repoStep, stepState, hto, hd, ha, hr, hpr, hstop]
        · simp [repoStep, stepState, hto, hd, ha, hr, hpr]
        · simp [repoStep, stepState, hto, hd, ha, hr, hpr]

/-- C2 counterexample: a visited commit whose hash is allowlisted leaves
the examined-commit counter untouched (0 after one visited commit, where
the claim requires 1). -/
theorem c2_counterexample :
    isCommitAllowListed cAllow.hash ["ALLOWED"] = true
    ∧ (repoScan optsN ["ALLOWED"] [rA] [cAllow]).cc = 0 := by decide

/-- C2 witness: the amended theorem applied to an allowlisted and to a
non-allowlisted concrete commit. -/
theorem c2_witness :
    repoStep optsN ["ALLOWED"] [rA] { cc := 0, leaks := [] } cAllow = .cont { cc := 0, leaks := [] }
    ∧ (stepState (repoStep optsN [] [rA] { cc := 0, leaks := [] } cGood)).cc = 1 :=
  ⟨(c2_allowlist_exempt_from_count optsN ["ALLOWED"] [rA] { cc := 0, leaks := [] } cAllow rfl
      (by decide)).1 (by decide),
   (c2_allowlist_exempt_from_count optsN [] [rA] { cc := 0, leaks := [] } cGood rfl
      (by decide)).2 (by decide)⟩

/-- C5 (amended): when resolving the first parent of a non-root,
non-allowlisted commit fails, the whole-history walker does not continue
with the commits after it — the iteration ends there (the swallowed
error only truncating the walk) — whereas in the single-commit
orchestrator's parent loop the same failure ends the scan with the error
surfaced to the caller. -/
theorem c5_parent_failure_scope :
    (∀ (opts : Opts) (al : List String) (rules : List Rule) (st : RepoState)
       (pre post : List RCommit) (c : RCommit) (e : String),
        c.isRoot = false → isCommitAllowListed c.hash al = false →
        c.parentResolve = .error e →
        repoScanList opts al rules st (pre ++ c :: post) =
          repoScanList opts al rules st (pre ++ [c]))
    ∧ (∀ (opts : Opts) (rules : List Rule) (cIn : CommitInput) (st : List Leak)
        (e : String) (pes : List ParentEntry),
        commitScanParents opts rules cIn st (ParentEntry.resolveErr e :: pes) = (st, some e)) := by
  constructor
  · intro opts al rules st pre post c e hroot hal hpr
    induction pre generalizing st with
    | nil =>
      rcases @repoStep_parent_error opts al rules st c e hroot hal hpr with
        h | h <;> simp only [List.nil_append, repoScanList, h]
    | cons p ps ih =>
      cases h : repoStep opts al rules st p with
      | cont st' => simpa only [List.cons_append, repoScanList, h] using ih st'
      | stop st' => simp only [List.cons_append, repoScanList, h]
      | abortIter e' st' => simp only [List.cons_append, repoScanList, h]
      | crashed st' => simp only [List.cons_append, repoScanList, h]
  · intro opts rules cIn st e pes
    rfl

/-- C5 counterexample: a parent-resolution failure in the walker loses
more than the failing commit's own contribution — a later healthy
commit's finding is gone, so the walk did not continue with the next
commit. -/
theorem c5_counterexample :
    (repoScan optsN [] [rA] [cBad, cGood]).leaks = []
    ∧ (repoScan optsN [] [rA] [cBad, cGood]).iterErr = some "object not found"
    ∧ (repoScan optsN [] [rA] [cGood]).leaks = [leakG] := by decide

/-- C5 witness: the amended theorem applied to the concrete failing
commit followed by a healthy one, and to a concrete failing parent
entry. -/
theorem c5_witness :
    repoScanList optsN [] [rA] { cc := 0, leaks := [] } ([] ++ cBad :: [cGood]) =
      repoScanList optsN [] [rA] { cc := 0, leaks := [] } ([] ++ [cBad])
    ∧ commitScanParents optsN [rA] cInW [] (ParentEntry.resolveErr "boom" :: []) =
        ([], some "boom") :=
  ⟨c5_parent_failure_scope.1 optsN [] [rA] { cc := 0, leaks := [] } [] [cGood] cBad
      "object not found" (by decide) (by decide) (by decide),
   c5_parent_failure_scope.2 optsN [rA] cInW [] "boom" []⟩

/-- C6: a go-diff fault (the abnormal abort during diff generation) is
recovered in both scanners: the whole-history walker's step continues to
the next commit with the findings untouched (the commit still counts),
and the single-commit scanner's parent step continues with the findings
untouched; neither aborts, crashes nor surfaces an error. -/
theorem c6_fault_zero_findings_continue :
    (∀ (opts : Opts) (al : List String) (rules : List Rule) (st : RepoState) (c : RCommit),
        opts.timedOut = false → depthReached st.cc opts = false →
        isCommitAllowListed c.hash al = false → c.isRoot = false →
        c.parentResolve = .ok .fault →
        repoStep opts al rules st c = .cont { st with cc := st.cc + 1 })
    ∧ (∀ (opts : Opts) (rules : List Rule) (cIn : CommitInput) (st : List Leak),
        commitParentStep opts rules cIn st (.resolved .fault) = .cont st) := by
  constructor
  · intro opts al rules st c hto hd hal hroot hpr
    simp [repoStep, hto, hd, hal, hroot, hpr]
  · intro opts rules cIn st
    by_cases hto : opts.timedOut = true <;> simp [commitParentStep, hto]

/-- C6 witness: the fault step applied at concrete commits. -/
theorem c6_witness :
    repoStep optsN [] [rA] { cc := 0, leaks := [] } cFault = .cont { cc := 1, leaks := [] }
    ∧ commitParentStep optsN [rA] cInW [] (.resolved .fault) = .cont [] :=
  ⟨c6_fault_zero_findings_continue.1 optsN [] [rA] { cc := 0, leaks := [] } cFault rfl
      (by decide) (by decide) (by decide) (by decide),
   c6_fault_zero_findings_continue.2 optsN [rA] cInW []⟩

/-- C7: a chunk passes the scanners' gate exactly when its change kind
is Addition, or it is Deletion and the include-deletions option is set;
context chunks never pass, and the repo scanner's per-file work on a
non-binary file patch scans exactly the gated chunks. -/
theorem c7_chunk_gate :
    (∀ (deletion : Bool) (ty : ChunkType),
        chunkEligible deletion ty = true ↔
          (ty = ChunkType.add ∨ (ty = ChunkType.del ∧ deletion = true)))
    ∧ (∀ deletion : Bool, chunkEligible deletion ChunkType.equal = false)
    ∧ (∀ (deletion : Bool) (rules : List Rule) (commitHash : String) (f : FilePatch),
        f.binary = false →
        repoScanFilePatch deletion rules commitHash f =
          (f.chunks.filter fun chunk => chunkEligible deletion chunk.ty).flatMap
            fun chunk =>
              checkRules rules (resolveFilePath f.fromFile f.toFile) commitHash
                chunk.content) := by
  refine ⟨?_, ?_, ?_⟩
  · intro deletion ty
    cases deletion <;> cases ty <;> decide
  · intro deletion
    cases deletion <;> rfl
  · intro deletion rules commitHash f hbin
    unfold repoScanFilePatch
    rw [if_neg (by simp [hbin])]
    exact flatMap_ite_eq_filter _ _ f.chunks

/-- C7 witness: the gated-scan equality applied to a concrete non-binary
file patch with one chunk of each kind. -/
theorem c7_witness :
    repoScanFilePatch false [rA] "h" fpW7 =
      (fpW7.chunks.filter fun chunk => chunkEligible false chunk.ty).flatMap
        fun chunk =>
          checkRules [rA] (resolveFilePath fpW7.fromFile fpW7.toFile) "h" chunk.content :=
  c7_chunk_gate.2.2 false [rA] "h" fpW7 rfl

/-- C3: at the failing input the single-commit scan returns the finding
with its line number still at the Go zero value, while the
spec-modelled reconstruction locates the matched line at absolute
position 3 in the patch text — the backfilled number never reaches the
findings the caller receives, because the Go range loop mutated a copy. -/
theorem c3_backfill_lost :
    commitScan optsN [rA] cIn3 = ([leak3], none)
    ∧ leak3.lineNumber = 0
    ∧ extractLine patchText3 leak3 = 3 := by decide

/-- C4: at the failing input — a two-parent commit whose diff against
each parent holds one surviving match — the single-commit scan returns
only the last chunk's match, although the first parent's chunk also
yields a surviving match, because the chunk loop overwrites the
accumulated findings instead of appending. -/
theorem c4_only_last_chunk_survives :
    (commitScan optsN [rA, rB] cIn4).fst.map (fun l => l.offender) = ["AKIA-TWO"]
    ∧ checkRules [rA, rB] "f" "c4hash" "AKIA-ONE" ≠ [] := by decide

/-- C8: at the failing input — a configuration whose message allowlist
holds one entry — loading aborts on the nil-map write, and the entry is
routed into the commit-hash map `whiteListCommits` (shown on an
allocated map), so message entries are treated as commit hashes, never
as message substrings. -/
theorem c8_message_allowlist_misrouted :
    loadTomlAllowlists { files := [], regexes := [], commits := [], branches := [],
                         messages := ["WIP"] } = .error .nilMapWrite
    ∧ goMapInsertAll (some []) ["WIP"] = .ok (some ["WIP"]) := by decide

/-- C9: the bounded worker pool never holds more than the configured
number of permits: every pool state reachable from the empty pool by the
buffered-channel acquire/release discipline stays at or below the
capacity. -/
theorem c9_pool_bound (k n : Nat) (_hk : 0 < k) (hr : PoolReachable k n) : n ≤ k := by
  induction hr with
  | init => exact Nat.zero_le k
  | step hm hs ih =>
    cases hs with
    | acquire m hlt => exact hlt
    | release m => exact Nat.le_of_succ_le ih

/-- C9 witness: the bound applied to a pool of capacity 2 after one
acquisition. -/
theorem c9_witness : (1 : Nat) ≤ 2 :=
  c9_pool_bound 2 1 (by decide)
    (PoolReachable.step PoolReachable.init (PoolStep.acquire 0 (by decide)))

/-- C10: loading a configuration aborts abnormally on the nil-map write
into the never-initialized `whiteListCommits` exactly when the commit or
the message allowlist is non-empty; it completes normally only when both
are empty. -/
theorem c10_nil_map_allowlist_abort :
    ∀ wl : WhitelistConfig,
      loadTomlAllowlists wl = .error .nilMapWrite ↔
        ¬(wl.commits = [] ∧ wl.messages = []) := by
  intro wl
  rcases wl with ⟨fs, rs, cs, bs, ms⟩
  cases cs with
  | cons c cs' => simp [loadTomlAllowlists, goMapInsertAll, goMapInsert]
  | nil =>
    cases ms with
    | cons m ms' => simp [loadTomlAllowlists, goMapInsertAll, goMapInsert]
    | nil => simp [loadTomlAllowlists, goMapInsertAll]

end Gitleaks
